import Mathlib

/-!
# Verification of the bnida CLI core

A shallow embedding of `src/cli/src/bnida_cli/schema.py` and
`src/cli/src/bnida_cli/__main__.py`, together with the section-relative
address rebasing algorithm of the repository's Binary Ninja import plugin.

Python dictionaries are modelled as association lists in insertion order
(`pyInsert` models `d[k] = v`, `pyRemove` models `del d[k]`, `plookup`
models `d.get(k)`); Python `==` on dictionaries is extensional, which is
modelled by the `MapEquiv` relations below.  Python integers are `Int`,
JSON values are the inductive `Json` (non-integer JSON numbers are outside
the model), and raising code is modelled with `Except`.
-/

set_option autoImplicit false

namespace Bnida

/-- JSON values as loaded by `json.load`.  Objects keep their key order,
matching `object_pairs_hook=OrderedDict` in `load_bnida`.  Python `bool`
is a distinct constructor because `json.load` produces `True`/`False`;
non-integer JSON numbers (floats) are outside the model. -/
inductive Json where
  | null
  | bool (b : Bool)
  | num (n : Int)
  | str (s : String)
  | arr (items : List Json)
  | obj (entries : List (String × Json))

/-- First-occurrence lookup in an association list; models `dict.get` (a
Python dict holds each key at most once, so "first" is exact). -/
def plookup {α β : Type} [DecidableEq α] (m : List (α × β)) (k : α) : Option β :=
  match m with
  | [] => none
  | (k2, v) :: rest => if k2 = k then some v else plookup rest k

/-- Models Python `d[k] = v`: an existing key keeps its position and gets
the new value, a fresh key is appended at the end. -/
def pyInsert {α β : Type} [DecidableEq α] (m : List (α × β)) (k : α) (v : β) :
    List (α × β) :=
  match m with
  | [] => [(k, v)]
  | (k2, v2) :: rest => if k2 = k then (k, v) :: rest else (k2, v2) :: pyInsert rest k v

/-- Models Python `del d[k]`: removes the (unique) entry for `k`. -/
def pyRemove {α β : Type} [DecidableEq α] (m : List (α × β)) (k : α) : List (α × β) :=
  match m with
  | [] => []
  | (k2, v2) :: rest => if k2 = k then rest else (k2, v2) :: pyRemove rest k

/-- Error raised by `int(value, 0)` on an unparseable string
(`ValueError` in Python), which `normalize_bnida` lets propagate. -/
inductive ParseErr where
  | valueError (input : String)
deriving DecidableEq, Repr

/-- Value of a decimal digit character, `none` otherwise. -/
def decDigit (c : Char) : Option Nat :=
  if '0' ≤ c ∧ c ≤ '9' then some (c.toNat - '0'.toNat) else none

/-- Value of a hexadecimal digit character, `none` otherwise. -/
def hexDigit (c : Char) : Option Nat :=
  if '0' ≤ c ∧ c ≤ '9' then some (c.toNat - '0'.toNat)
  else if 'a' ≤ c ∧ c ≤ 'f' then some (c.toNat - 'a'.toNat + 10)
  else if 'A' ≤ c ∧ c ≤ 'F' then some (c.toNat - 'A'.toNat + 10)
  else none

/-- Value of an octal digit character, `none` otherwise. -/
def octDigit (c : Char) : Option Nat :=
  if '0' ≤ c ∧ c ≤ '7' then some (c.toNat - '0'.toNat) else none

/-- Value of a binary digit character, `none` otherwise. -/
def binDigit (c : Char) : Option Nat :=
  if c = '0' ∨ c = '1' then some (c.toNat - '0'.toNat) else none

/-- Value of a nonempty digit string in the given base, most significant
digit first; `none` on an empty string or a non-digit. -/
def digitsVal (digit : Char → Option Nat) (base : Nat) (cs : List Char) : Option Nat :=
  match cs with
  | [] => none
  | _ =>
    cs.foldl
      (fun acc c =>
        match acc, digit c with
        | some a, some d => some (a * base + d)
        | _, _ => none)
      (some 0)

/-- Models Python `int(s, 0)` on an unsigned literal: `0x`/`0o`/`0b`
prefixes select the base, otherwise the literal is decimal; a nonzero
decimal literal must not have a leading zero, while an all-zero literal is
allowed.  Underscore separators and surrounding whitespace, which Python
also accepts, are outside the model. -/
def natBase0 (cs : List Char) : Option Nat :=
  match cs with
  | '0' :: x :: rest =>
    if x = 'x' ∨ x = 'X' then digitsVal hexDigit 16 rest
    else if x = 'o' ∨ x = 'O' then digitsVal octDigit 8 rest
    else if x = 'b' ∨ x = 'B' then digitsVal binDigit 2 rest
    else if ('0' :: x :: rest).all (fun c => c = '0') then some 0
    else none
  | _ => digitsVal decDigit 10 cs

/-- Models Python `int(s, 0)`: an optional sign followed by an unsigned
base-prefixed or decimal literal. -/
def pyIntBase0 (s : String) : Option Int :=
  match s.toList with
  | '-' :: rest => (natBase0 rest).map (fun n => -(n : Int))
  | '+' :: rest => (natBase0 rest).map (fun n => (n : Int))
  | cs => (natBase0 cs).map (fun n => (n : Int))

/-- `_parse_int` from `schema.py`: an `int` passes through (and a `bool`,
being a subclass of `int` in Python, is its 0/1 value), a string goes
through `int(value, 0)` whose `ValueError` propagates, and every other
value silently becomes the default. -/
def parse_int (value : Json) (dflt : Int) : Except ParseErr Int :=
  match value with
  | .num n => .ok n
  | .bool b => .ok (if b then 1 else 0)
  | .str s =>
    match pyIntBase0 s with
    | some n => .ok n
    | none => .error (.valueError s)
  | _ => .ok dflt

/-- `_parse_str` from `schema.py`: a string passes through, anything else
becomes the default. -/
def parse_str (value : Json) (dflt : String) : String :=
  match value with
  | .str s => s
  | _ => dflt

/-- `_as_mapping` from `schema.py`: a JSON object's entries, `{}` for any
other value. -/
def as_mapping (value : Json) : List (String × Json) :=
  match value with
  | .obj kvs => kvs
  | _ => []

/-- `BnidaSection` from `schema.py`. -/
structure BnidaSection where
  start : Int
  «end» : Int
deriving DecidableEq, Repr

/-- `BnidaStructMember` from `schema.py`. -/
structure BnidaStructMember where
  offset : Int
  size : Int
  type : String
deriving DecidableEq, Repr

/-- `BnidaStruct` from `schema.py`; `members` is a Python dict. -/
structure BnidaStruct where
  size : Int
  members : List (String × BnidaStructMember)
deriving DecidableEq, Repr

/-- `BnidaData` from `schema.py`: the normalized AnnotationSet. -/
structure BnidaData where
  sections : List (String × BnidaSection)
  names : List (Int × String)
  functions : List Int
  func_comments : List (Int × String)
  line_comments : List (Int × String)
  structs : List (String × BnidaStruct)
deriving DecidableEq, Repr

/-- The element-by-element parse of `_parse_address_list`'s comprehension
`[_parse_int(item) for item in value]`; the first `ValueError` aborts. -/
def parse_int_list (items : List Json) : Except ParseErr (List Int) :=
  match items with
  | [] => .ok []
  | item :: rest =>
    match parse_int item 0 with
    | .error e => .error e
    | .ok n =>
      match parse_int_list rest with
      | .error e => .error e
      | .ok ns => .ok (n :: ns)

/-- `_parse_address_list` from `schema.py`: a non-list normalizes to `[]`,
a list is parsed element by element with no sorting and no deduplication. -/
def parse_address_list (value : Json) : Except ParseErr (List Int) :=
  match value with
  | .arr items => parse_int_list items
  | _ => .ok []

/-- The loop of `_parse_address_map`: `parsed[_parse_int(key)] = _parse_str(val)`
over the input pairs in order, accumulating into `parsed`. -/
def parse_address_map_go (pairs : List (String × Json)) (parsed : List (Int × String)) :
    Except ParseErr (List (Int × String)) :=
  match pairs with
  | [] => .ok parsed
  | (key, val) :: rest =>
    match parse_int (.str key) 0 with
    | .error e => .error e
    | .ok k => parse_address_map_go rest (pyInsert parsed k (parse_str val ""))

/-- `_parse_address_map` from `schema.py`. -/
def parse_address_map (value : Json) : Except ParseErr (List (Int × String)) :=
  parse_address_map_go (as_mapping value) []

/-- The loop of `_parse_sections`: each section's `start`/`end` go through
`_parse_int` with default 0 (`None` from a missing field takes the
default, a malformed string still raises). -/
def parse_sections_go (pairs : List (String × Json)) (sections : List (String × BnidaSection)) :
    Except ParseErr (List (String × BnidaSection)) :=
  match pairs with
  | [] => .ok sections
  | (name, sec) :: rest =>
    match parse_int ((plookup (as_mapping sec) "start").getD .null) 0 with
    | .error e => .error e
    | .ok s =>
      match parse_int ((plookup (as_mapping sec) "end").getD .null) 0 with
      | .error e => .error e
      | .ok e => parse_sections_go rest (pyInsert sections name ⟨s, e⟩)

/-- `_parse_sections` from `schema.py`. -/
def parse_sections (value : Json) : Except ParseErr (List (String × BnidaSection)) :=
  parse_sections_go (as_mapping value) []

/-- `_parse_struct_member` from `schema.py`: missing `offset`/`size`
default to 0, missing `type` to the empty string. -/
def parse_struct_member (value : Json) : Except ParseErr BnidaStructMember :=
  match parse_int ((plookup (as_mapping value) "offset").getD .null) 0 with
  | .error e => .error e
  | .ok o =>
    match parse_int ((plookup (as_mapping value) "size").getD .null) 0 with
    | .error e => .error e
    | .ok s =>
      .ok ⟨o, s, parse_str ((plookup (as_mapping value) "type").getD .null) ""⟩

/-- The inner loop of `_parse_structs` over one struct's members. -/
def parse_members_go (pairs : List (String × Json)) (members : List (String × BnidaStructMember)) :
    Except ParseErr (List (String × BnidaStructMember)) :=
  match pairs with
  | [] => .ok members
  | (name, val) :: rest =>
    match parse_struct_member val with
    | .error e => .error e
    | .ok m => parse_members_go rest (pyInsert members name m)

/-- The outer loop of `_parse_structs`. -/
def parse_structs_go (pairs : List (String × Json)) (structs : List (String × BnidaStruct)) :
    Except ParseErr (List (String × BnidaStruct)) :=
  match pairs with
  | [] => .ok structs
  | (name, struct_val) :: rest =>
    match parse_int ((plookup (as_mapping struct_val) "size").getD .null) 0 with
    | .error e => .error e
    | .ok size =>
      match parse_members_go (as_mapping ((plookup (as_mapping struct_val) "members").getD .null)) [] with
      | .error e => .error e
      | .ok members => parse_structs_go rest (pyInsert structs name ⟨size, members⟩)

/-- `_parse_structs` from `schema.py`. -/
def parse_structs (value : Json) : Except ParseErr (List (String × BnidaStruct)) :=
  parse_structs_go (as_mapping value) []

/-- `raw.get(key, default)` on the top-level document. -/
def rawGet (raw : List (String × Json)) (key : String) (dflt : Json) : Json :=
  (plookup raw key).getD dflt

/-- `normalize_bnida` from `schema.py`: the tables are parsed in the
order the `BnidaData` dict literal is built; the first `ValueError`
aborts the whole load. -/
def normalize_bnida (raw : List (String × Json)) : Except ParseErr BnidaData :=
  match parse_sections (rawGet raw "sections" (.obj [])) with
  | .error e => .error e
  | .ok sections =>
    match parse_address_map (rawGet raw "names" (.obj [])) with
    | .error e => .error e
    | .ok names =>
      match parse_address_list (rawGet raw "functions" (.arr [])) with
      | .error e => .error e
      | .ok functions =>
        match parse_address_map (rawGet raw "func_comments" (.obj [])) with
        | .error e => .error e
        | .ok func_comments =>
          match parse_address_map (rawGet raw "line_comments" (.obj [])) with
          | .error e => .error e
          | .ok line_comments =>
            match parse_structs (rawGet raw "structs" (.obj [])) with
            | .error e => .error e
            | .ok structs =>
              .ok ⟨sections, names, functions, func_comments, line_comments, structs⟩

/-- Little-endian base-`base` digits of `n`, with `fuel` bounding the
recursion depth (any `fuel ≥ n` is exact); a structurally recursive
computation agreeing with `Nat.digits`. -/
def natDigitsRev (base : Nat) : Nat → Nat → List Nat
  | 0, _ => []
  | fuel + 1, n => if n = 0 then [] else n % base :: natDigitsRev base fuel (n / base)

/-- Decimal digit string of a natural number, most significant digit
first; models Python `str` on a nonnegative int. -/
def natDecRepr (n : Nat) : String :=
  if n = 0 then "0" else (((natDigitsRev 10 n n).map Nat.digitChar).reverse).asString

/-- Models Python `str(addr)` on an int. -/
def intDecRepr (i : Int) : String :=
  if i < 0 then "-" ++ natDecRepr i.natAbs else natDecRepr i.toNat

/-- Models Python `sorted(d)` on an integer-keyed dict: the distinct keys
in ascending order. -/
def sortedIntKeys {β : Type} (m : List (Int × β)) : List Int :=
  ((m.map Prod.fst).dedup).insertionSort (fun a b => a ≤ b)

/-- Models Python `sorted(d)` on a string-keyed dict: the distinct keys
in ascending code-point lexicographic order. -/
def sortedStrKeys {β : Type} (m : List (String × β)) : List String :=
  ((m.map Prod.fst).dedup).insertionSort (fun a b => a ≤ b)

/-- `_format_address_map` from `schema.py`: decimal-string keys in
ascending numeric order.  The `.null` branch is unreachable because
`addr` ranges over the key set of `values` (Python indexes `values[addr]`
directly). -/
def format_address_map (values : List (Int × String)) : List (String × Json) :=
  (sortedIntKeys values).map
    (fun addr =>
      (intDecRepr addr,
        match plookup values addr with
        | some v => .str v
        | none => .null))

/-- `_format_sections` from `schema.py`; the `.null` branch is
unreachable as in `format_address_map`. -/
def format_sections (values : List (String × BnidaSection)) : List (String × Json) :=
  (sortedStrKeys values).map
    (fun name =>
      (name,
        match plookup values name with
        | some sec => Json.obj [("start", .num sec.start), ("end", .num sec.«end»)]
        | none => Json.null))

/-- The member-formatting loop of `_format_structs`. -/
def format_struct_members (members : List (String × BnidaStructMember)) : List (String × Json) :=
  (sortedStrKeys members).map
    (fun member_name =>
      (member_name,
        match plookup members member_name with
        | some mem =>
          Json.obj [("offset", .num mem.offset), ("size", .num mem.size), ("type", .str mem.type)]
        | none => Json.null))

/-- `_format_structs` from `schema.py`. -/
def format_structs (values : List (String × BnidaStruct)) : List (String × Json) :=
  (sortedStrKeys values).map
    (fun name =>
      (name,
        match plookup values name with
        | some st => Json.obj [("size", .num st.size), ("members", .obj (format_struct_members st.members))]
        | none => Json.null))

/-- `STANDARD_KEYS` from `schema.py`. -/
def STANDARD_KEYS : List String :=
  ["sections", "names", "functions", "func_comments", "line_comments", "structs"]

/-- `merge_bnida` from `schema.py`: the six recognized tables are emitted
first from the normalized data (`functions` through `sorted`, the maps
through their formatters), then every unrecognized top-level key of the
raw document is passed through unchanged in its original order. -/
def merge_bnida (raw : List (String × Json)) (data : BnidaData) : List (String × Json) :=
  [("sections", .obj (format_sections data.sections)),
   ("names", .obj (format_address_map data.names)),
   ("functions", .arr ((data.functions.insertionSort (fun a b => a ≤ b)).map Json.num)),
   ("func_comments", .obj (format_address_map data.func_comments)),
   ("line_comments", .obj (format_address_map data.line_comments)),
   ("structs", .obj (format_structs data.structs))] ++
  raw.filter (fun kv => !(STANDARD_KEYS.contains kv.1))

/-- `BnidaDocument` from `schema.py`: the raw document kept for
passthrough keys, plus the normalized data. -/
structure BnidaDocument where
  raw : List (String × Json)
  data : BnidaData

/-- `AddressEntry` from `schema.py`: the optional fields model the
`NotRequired` keys (the `function` key is only ever set to `True`, so its
absence is modelled by `false`). -/
structure AddressEntry where
  address : Int
  name : Option String
  function : Bool
  line_comment : Option String
  func_comment : Option String
deriving DecidableEq, Repr

/-- `collect_addresses` from `schema.py`: the sorted deduplicated union
of the keys of `names`, `line_comments`, `func_comments` and the members
of `functions`. -/
def collect_addresses (data : BnidaData) : List Int :=
  (((data.names.map Prod.fst) ++ (data.line_comments.map Prod.fst) ++
      (data.func_comments.map Prod.fst) ++ data.functions).dedup).insertionSort
    (fun a b => a ≤ b)

/-- The per-address entry assembly of `iter_address_entries`: each of the
four tables is probed independently. -/
def address_entry (data : BnidaData) (addr : Int) : AddressEntry :=
  { address := addr
    name := plookup data.names addr
    function := data.functions.contains addr
    line_comment := plookup data.line_comments addr
    func_comment := plookup data.func_comments addr }

/-- The synthetic `{"address": address}` entry built by `query_address`
when nothing is recorded at the queried address. -/
def bare_entry (addr : Int) : AddressEntry :=
  ⟨addr, none, false, none, none⟩

/-- `iter_address_entries` from `schema.py`. -/
def iter_address_entries (data : BnidaData) (addrs : List Int) : List AddressEntry :=
  addrs.map (address_entry data)

/-- `build_index` from `__main__.py`: the entries dict keyed by address,
plus the sorted address list. -/
def build_index (doc : BnidaDocument) : List (Int × AddressEntry) × List Int :=
  let addresses := collect_addresses doc.data
  let entries_list := iter_address_entries doc.data addresses
  (entries_list.map (fun e => (e.address, e)), addresses)

/-- The `entries[addr]` dict indexing of `query_address`; the default is
unreachable in its uses because every sliced address occurs in the index
(Python would raise `KeyError` otherwise). -/
def lookup_entry (entries : List (Int × AddressEntry)) (addr : Int) : AddressEntry :=
  (plookup entries addr).getD (bare_entry addr)

/-- Models Python `bisect.bisect_left` as used in `query_address`: on the
sorted list produced by `collect_addresses` the lower-bound insertion
index is the length of the longest prefix of elements below the query. -/
def bisect_left (l : List Int) (a : Int) : Nat :=
  (l.takeWhile (fun y => y < a)).length

/-- `QueryResult` from `schema.py`. -/
structure QueryResult where
  address : Int
  before : List AddressEntry
  current : AddressEntry
  after : List AddressEntry
deriving DecidableEq, Repr

/-- `query_address` from `__main__.py`.  The Python slice
`addresses[max(0, idx - before) : idx]` is `(take idx).drop (idx - before)`
(truncated subtraction supplies the `max`), `addresses[idx + 1 : idx + 1 + after]`
is `(drop (idx + 1)).take after`, and `addresses[idx : idx + after]` is
`(drop idx).take after`. -/
def query_address (doc : BnidaDocument) (address : Int) (before after : Nat) : QueryResult :=
  let indexed := build_index doc
  let entries := indexed.1
  let addresses := indexed.2
  let idx := bisect_left addresses address
  if addresses.get? idx = some address then
    { address := address
      before := ((addresses.take idx).drop (idx - before)).map (lookup_entry entries)
      current := lookup_entry entries address
      after := ((addresses.drop (idx + 1)).take after).map (lookup_entry entries) }
  else
    { address := address
      before := ((addresses.take idx).drop (idx - before)).map (lookup_entry entries)
      current := bare_entry address
      after := ((addresses.drop idx).take after).map (lookup_entry entries) }

/-- The `CliError` hierarchy from `__main__.py`: `overwriteError` models
`OverwriteError` (Conflict), `missingEntryError` models
`MissingEntryError` (NotFound), and `cliError` the base class raised
directly for an empty name (EmptyValue).  A Python `except CliError`
catches all three. -/
inductive CliErr where
  | cliError (msg : String)
  | overwriteError (msg : String)
  | missingEntryError (msg : String)
deriving DecidableEq, Repr

/-- The message carried by a `CliErr`, models `str(exc)`. -/
def cli_error_message : CliErr → String
  | .cliError m => m
  | .overwriteError m => m
  | .missingEntryError m => m

/-- Lowercase hexadecimal digit string of a natural number. -/
def natHexRepr (n : Nat) : String :=
  if n = 0 then "0" else (((natDigitsRev 16 n n).map Nat.digitChar).reverse).asString

/-- `format_address` from `__main__.py`: models the f-string
`f"0x\x7baddr:x\x7d"` (for a negative int Python renders the sign after the
`0x` prefix). -/
def format_address (addr : Int) : String :=
  "0x" ++ (if addr < 0 then "-" ++ natHexRepr addr.natAbs else natHexRepr addr.toNat)

/-- Models CPython `repr` on a string as used by the `!r` conversions in
the error messages; quote selection and escaping for strings containing
quotes or control characters are outside the model. -/
def pyRepr (s : String) : String :=
  "'" ++ s ++ "'"

/-- `ensure_name_available` from `__main__.py`. -/
def ensure_name_available (doc : BnidaData) (address : Int) (name : String) :
    Except CliErr Unit :=
  match plookup doc.names address with
  | some existing =>
    if existing ≠ name then
      .error (.overwriteError ("name already set at " ++ format_address address ++ ": " ++
        pyRepr existing ++ "; use rename-name to change it"))
    else .ok ()
  | none => .ok ()

/-- `ensure_name_nonempty` from `__main__.py`. -/
def ensure_name_nonempty (name : String) : Except CliErr Unit :=
  if name = "" then .error (.cliError "name must be non-empty") else .ok ()

/-- `ensure_comment_available` from `__main__.py`. -/
def ensure_comment_available (doc : BnidaData) (address : Int) (comment : String) :
    Except CliErr Unit :=
  match plookup doc.line_comments address with
  | some existing =>
    if existing ≠ comment then
      .error (.overwriteError ("line comment already set at " ++ format_address address ++ ": " ++
        pyRepr existing ++ "; use rename-comment to change it"))
    else .ok ()
  | none => .ok ()

/-- `ensure_name_exists` from `__main__.py`. -/
def ensure_name_exists (doc : BnidaData) (address : Int) : Except CliErr Unit :=
  match plookup doc.names address with
  | none =>
    .error (.missingEntryError ("name not set at " ++ format_address address ++
      "; use add-function or add-variable to create it"))
  | some _ => .ok ()

/-- `ensure_comment_exists` from `__main__.py`. -/
def ensure_comment_exists (doc : BnidaData) (address : Int) : Except CliErr Unit :=
  match plookup doc.line_comments address with
  | none =>
    .error (.missingEntryError ("line comment not set at " ++ format_address address ++
      "; use add-comment to create it"))
  | some _ => .ok ()

/-- `add_function` from `__main__.py`: the emptiness check, then the
conflict check, and only then the two mutations — `functions` becomes the
sorted set with the address added, and the `names` entry is assigned. -/
def add_function (doc : BnidaData) (address : Int) (name : String) :
    Except CliErr BnidaData :=
  match ensure_name_nonempty name with
  | .error e => .error e
  | .ok _ =>
    match ensure_name_available doc address name with
    | .error e => .error e
    | .ok _ =>
      .ok { doc with
              functions := ((address :: doc.functions).dedup).insertionSort (fun a b => a ≤ b)
              names := pyInsert doc.names address name }

/-- `add_variable` from `__main__.py`. -/
def add_variable (doc : BnidaData) (address : Int) (name : String) :
    Except CliErr BnidaData :=
  match ensure_name_nonempty name with
  | .error e => .error e
  | .ok _ =>
    match ensure_name_available doc address name with
    | .error e => .error e
    | .ok _ => .ok { doc with names := pyInsert doc.names address name }

/-- `add_comment` from `__main__.py`: only the conflict check — the
source has no emptiness check on the comment. -/
def add_comment (doc : BnidaData) (address : Int) (comment : String) :
    Except CliErr BnidaData :=
  match ensure_comment_available doc address comment with
  | .error e => .error e
  | .ok _ => .ok { doc with line_comments := pyInsert doc.line_comments address comment }

/-- `rename_name` from `__main__.py`: update-only; an empty replacement
deletes the entry. -/
def rename_name (doc : BnidaData) (address : Int) (name : String) :
    Except CliErr BnidaData :=
  match ensure_name_exists doc address with
  | .error e => .error e
  | .ok _ =>
    if name = "" then .ok { doc with names := pyRemove doc.names address }
    else .ok { doc with names := pyInsert doc.names address name }

/-- `rename_comment` from `__main__.py`. -/
def rename_comment (doc : BnidaData) (address : Int) (comment : String) :
    Except CliErr BnidaData :=
  match ensure_comment_exists doc address with
  | .error e => .error e
  | .ok _ =>
    if comment = "" then .ok { doc with line_comments := pyRemove doc.line_comments address }
    else .ok { doc with line_comments := pyInsert doc.line_comments address comment }

/-- A parsed CLI subcommand (the argument-parsing glue is outside the
model; `query` window counts are the resolved before/after contexts). -/
inductive Command where
  | query (address : Int) (before after : Nat) (jsonOut : Bool)
  | addFunction (address : Int) (name : String)
  | addVariable (address : Int) (name : String)
  | addComment (address : Int) (comment : String)
  | renameName (address : Int) (name : String)
  | renameComment (address : Int) (comment : String)

/-- Whether the subcommand goes through the mutation path of `main`
(everything except `query`). -/
def Command.is_mutation : Command → Bool
  | .query _ _ _ _ => false
  | _ => true

/-- The `elif` dispatch of `main` over the mutation subcommands. -/
def run_mutation (cmd : Command) (data : BnidaData) : Except CliErr BnidaData :=
  match cmd with
  | .query _ _ _ _ => .ok data
  | .addFunction a n => add_function data a n
  | .addVariable a n => add_variable data a n
  | .addComment a c => add_comment data a c
  | .renameName a n => rename_name data a n
  | .renameComment a c => rename_comment data a c

/-- The observable outcome of one `main` invocation after a successful
load: the process exit code, the printed query result (if any), the
document written back to the file (if the write path is reached; `none`
models the file being left unchanged), and the standard-error line (if
any). -/
structure MainResult where
  exitCode : Nat
  output : Option QueryResult
  written : Option (List (String × Json))
  stderr : Option String

/-- `main` from `__main__.py` after a successful `load_bnida`: the
`query` branch prints the result and returns 0 before the write path; a
mutation subcommand runs under `try`, a caught `CliError` prints
`error: ...` to standard error and returns 1 with no write, and on
success `write_bnida` emits `merge_bnida` of the document and `main`
returns 0. -/
def main_with_doc (cmd : Command) (doc : BnidaDocument) : MainResult :=
  match cmd with
  | .query a b f _ =>
    { exitCode := 0
      output := some (query_address doc a b f)
      written := none
      stderr := none }
  | _ =>
    match run_mutation cmd doc.data with
    | .error e =>
      { exitCode := 1
        output := none
        written := none
        stderr := some ("error: " ++ cli_error_message e) }
    | .ok data2 =>
      { exitCode := 0
        output := none
        written := some (merge_bnida doc.raw data2)
        stderr := none }

/-- Modelled from the spec: the repository's Binary Ninja import plugin
(`binja/binja_import.py`, `ImportInBackground.adjust_addr`) is not among
the sources, only its tests are.  Per spec section 4.4 and the test
`test_adjust_addr_rebases_to_section`: find the source section whose
interval `[start, end)` contains the address, compute the offset from
that section's start, look up the section of the same name in the
target's live layout, and return the target section's start plus the
offset; `none` (NotMappable) when no source section contains the address
or the target has no section of that name. -/
def adjust_addr (sections : List (String × BnidaSection))
    (bv_sections : List (String × BnidaSection)) (addr : Int) : Option Int :=
  match sections.find? (fun kv => decide (kv.2.start ≤ addr) && decide (addr < kv.2.«end»)) with
  | none => none
  | some kv =>
    match plookup bv_sections kv.1 with
    | none => none
    | some target => some (target.start + (addr - kv.2.start))

/-- Extensional equality of two modelled dicts; models Python `==` on
dictionaries, which ignores insertion order. -/
def MapEquiv {α β : Type} [DecidableEq α] (m₁ m₂ : List (α × β)) : Prop :=
  ∀ k, plookup m₁ k = plookup m₂ k

/-- Lifts a relation to `Option`: both absent, or both present and
related. -/
def OptionRel {β : Type} (r : β → β → Prop) : Option β → Option β → Prop
  | some a, some b => r a b
  | none, none => True
  | _, _ => False

/-- Python `==` on two struct definitions: equal sizes and extensionally
equal member dicts. -/
def StructEquiv (s₁ s₂ : BnidaStruct) : Prop :=
  s₁.size = s₂.size ∧ MapEquiv s₁.members s₂.members

/-- Python `==` on two normalized AnnotationSets: the dict tables compare
extensionally (at every level), the `functions` list compares as a list
(order- and multiplicity-sensitive). -/
def BnidaDataEquiv (d₁ d₂ : BnidaData) : Prop :=
  MapEquiv d₁.sections d₂.sections ∧
  MapEquiv d₁.names d₂.names ∧
  d₁.functions = d₂.functions ∧
  MapEquiv d₁.func_comments d₂.func_comments ∧
  MapEquiv d₁.line_comments d₂.line_comments ∧
  ∀ k, OptionRel StructEquiv (plookup d₁.structs k) (plookup d₂.structs k)

/-- Proof-layer helper: the entries of `m` re-listed along the key list
`ks` (with an irrelevant default for keys outside `m`). -/
def relist {α β : Type} [DecidableEq α] (ks : List α) (m : List (α × β)) (dflt : β) :
    List (α × β) :=
  ks.map (fun k => (k, (plookup m k).getD dflt))

/-- Proof-layer helper: what one struct definition becomes after a
serialize-and-reparse round trip (the member dict re-listed along its
sorted keys). -/
def structParsed (st : BnidaStruct) : BnidaStruct :=
  ⟨st.size, relist (sortedStrKeys st.members) st.members ⟨0, 0, ""⟩⟩

/-- What claim C2 requires of `query_address` when the queried address
occurs in the sorted index: the full entry as `current`, the last up-to-`b`
strictly smaller recorded addresses as `before`, the first up-to-`f`
strictly larger ones as `after`, and the queried address in neither
window. -/
def ExactQuerySpec (doc : BnidaDocument) (a : Int) (b f : Nat) : Prop :=
  let addrs := collect_addresses doc.data
  let lb := addrs.filter (fun x => x < a)
  let la := addrs.filter (fun x => a < x)
  let r := query_address doc a b f
  r.current = address_entry doc.data a ∧
  r.before = (lb.drop (lb.length - b)).map (address_entry doc.data) ∧
  r.after = (la.take f).map (address_entry doc.data) ∧
  r.before.length ≤ b ∧ r.after.length ≤ f ∧
  (∀ e ∈ r.before, e.address < a) ∧ (∀ e ∈ r.after, a < e.address) ∧
  a ∉ r.before.map AddressEntry.address ∧ a ∉ r.after.map AddressEntry.address

/-- What claim C2 requires of `query_address` when the queried address is
absent from the index: a bare synthetic `current`, up-to-`b` strictly
smaller recorded addresses as `before`, and the `after` window starting
at the insertion point itself (the first recorded address at or after the
query). -/
def MissQuerySpec (doc : BnidaDocument) (a : Int) (b f : Nat) : Prop :=
  let addrs := collect_addresses doc.data
  let lb := addrs.filter (fun x => x < a)
  let la := addrs.filter (fun x => a ≤ x)
  let r := query_address doc a b f
  r.current = bare_entry a ∧
  r.before = (lb.drop (lb.length - b)).map (address_entry doc.data) ∧
  r.after = (la.take f).map (address_entry doc.data) ∧
  r.before.length ≤ b ∧ r.after.length ≤ f ∧
  (∀ e ∈ r.before, e.address < a) ∧ (∀ e ∈ r.after, a ≤ e.address)

/-- The empty store. -/
def emptyData : BnidaData := ⟨[], [], [], [], [], []⟩

/-- The example store of spec section 8: three function starts, each with
a line comment. -/
def exampleData : BnidaData :=
  { sections := []
    names := []
    functions := [4096, 4112, 4128]
    func_comments := []
    line_comments := [(4096, "first"), (4112, "second"), (4128, "third")]
    structs := [] }

section AssocLemmas

variable {α β : Type} [DecidableEq α]

theorem plookup_eq_none_iff (m : List (α × β)) (k : α) :
    plookup m k = none ↔ k ∉ m.map Prod.fst := by
  induction m with
  | nil => simp [plookup]
  | cons kv rest ih =>
    obtain ⟨k2, v⟩ := kv
    by_cases h : k2 = k
    · subst h; simp [plookup]
    · simp only [plookup, if_neg h, List.map_cons, List.mem_cons, not_or, ih]
      exact ⟨fun hn => ⟨fun he => h he.symm, hn⟩, fun hn => hn.2⟩

theorem plookup_mem_keys {m : List (α × β)} {k : α} (h : k ∈ m.map Prod.fst) :
    ∃ v, plookup m k = some v := by
  cases hp : plookup m k with
  | none => exact absurd h ((plookup_eq_none_iff m k).mp hp)
  | some v => exact ⟨v, rfl⟩

theorem plookup_append_left {m₁ m₂ : List (α × β)} {k : α} {v : β}
    (h : plookup m₁ k = some v) : plookup (m₁ ++ m₂) k = some v := by
  induction m₁ with
  | nil => simp [plookup] at h
  | cons kv rest ih =>
    obtain ⟨k2, v2⟩ := kv
    by_cases hk : k2 = k <;> simp_all [plookup, hk]

theorem plookup_append_right {m₁ m₂ : List (α × β)} {k : α}
    (h : plookup m₁ k = none) : plookup (m₁ ++ m₂) k = plookup m₂ k := by
  induction m₁ with
  | nil => simp
  | cons kv rest ih =>
    obtain ⟨k2, v2⟩ := kv
    by_cases hk : k2 = k <;> simp_all [plookup, hk]

theorem plookup_map_self (ks : List α) (f : α → β) (k : α) :
    plookup (ks.map (fun x => (x, f x))) k = if k ∈ ks then some (f k) else none := by
  induction ks with
  | nil => simp [plookup]
  | cons x xs ih =>
    by_cases h : x = k
    · subst h; simp [plookup]
    · simp [plookup, h, ih, Ne.symm h]

theorem pyInsert_eq_append {m : List (α × β)} {k : α} (v : β)
    (h : plookup m k = none) : pyInsert m k v = m ++ [(k, v)] := by
  induction m with
  | nil => simp [pyInsert]
  | cons kv rest ih =>
    obtain ⟨k2, v2⟩ := kv
    by_cases hk : k2 = k <;> simp_all [plookup, pyInsert, hk]

theorem plookup_pyInsert_self (m : List (α × β)) (k : α) (v : β) :
    plookup (pyInsert m k v) k = some v := by
  induction m with
  | nil => simp [pyInsert, plookup]
  | cons kv rest ih =>
    obtain ⟨k2, v2⟩ := kv
    by_cases hk : k2 = k <;> simp [pyInsert, plookup, hk, ih]

theorem plookup_pyInsert_ne (m : List (α × β)) {k k2 : α} (v : β) (h : k2 ≠ k) :
    plookup (pyInsert m k v) k2 = plookup m k2 := by
  induction m with
  | nil => simp [pyInsert, plookup, Ne.symm h]
  | cons kv rest ih =>
    obtain ⟨k3, v3⟩ := kv
    by_cases hk : k3 = k
    · subst hk; simp [pyInsert, plookup, Ne.symm h, h]
    · by_cases hk2 : k3 = k2
      · subst hk2; simp [pyInsert, plookup, hk]
      · simp [pyInsert, plookup, hk, hk2, ih]

theorem plookup_pyRemove_self {m : List (α × β)} (k : α)
    (h : (m.map Prod.fst).Nodup) : plookup (pyRemove m k) k = none := by
  induction m with
  | nil => simp [pyRemove, plookup]
  | cons kv rest ih =>
    obtain ⟨k2, v2⟩ := kv
    simp only [List.map_cons, List.nodup_cons] at h
    by_cases hk : k2 = k
    · subst hk
      simpa [pyRemove, plookup] using (plookup_eq_none_iff rest k2).mpr h.1
    · simp [pyRemove, plookup, hk, ih h.2]

theorem foldl_pyInsert_append :
    ∀ (l acc : List (α × β)), (∀ kv ∈ l, plookup acc kv.1 = none) →
      (l.map Prod.fst).Nodup →
      l.foldl (fun m kv => pyInsert m kv.1 kv.2) acc = acc ++ l
  | [], acc, _, _ => by simp
  | (k, v) :: rest, acc, hdisj, hnd => by
    simp only [List.map_cons, List.nodup_cons] at hnd
    have h1 : pyInsert acc k v = acc ++ [(k, v)] :=
      pyInsert_eq_append v (hdisj (k, v) (by simp))
    have h2 : ∀ kv ∈ rest, plookup (acc ++ [(k, v)]) kv.1 = none := by
      intro kv hkv
      have hne : k ≠ kv.1 := by
        intro he
        exact hnd.1 (he ▸ (List.mem_map.mpr ⟨kv, hkv, rfl⟩))
      rw [plookup_append_right (hdisj kv (by simp [hkv]))]
      simp [plookup, hne]
    calc ((k, v) :: rest).foldl (fun m kv => pyInsert m kv.1 kv.2) acc
        = rest.foldl (fun m kv => pyInsert m kv.1 kv.2) (acc ++ [(k, v)]) := by
          simp [h1]
      _ = (acc ++ [(k, v)]) ++ rest := foldl_pyInsert_append rest (acc ++ [(k, v)]) h2 hnd.2
      _ = acc ++ (k, v) :: rest := by simp

end AssocLemmas

section SortedKeyLemmas

variable {α : Type} [DecidableEq α] [LinearOrder α]

theorem dedup_sort_nodup (l : List α) :
    ((l.dedup).insertionSort (fun a b => a ≤ b)).Nodup :=
  (List.perm_insertionSort _ _).symm.nodup (List.nodup_dedup l)

theorem mem_dedup_sort {a : α} {l : List α} :
    a ∈ (l.dedup).insertionSort (fun a b => a ≤ b) ↔ a ∈ l :=
  (List.perm_insertionSort _ _).mem_iff.trans List.mem_dedup

theorem dedup_sort_sorted (l : List α) :
    ((l.dedup).insertionSort (fun a b => a ≤ b)).Sorted (fun a b => a ≤ b) :=
  List.sorted_insertionSort _ _

theorem sortedIntKeys_nodup {β : Type} (m : List (Int × β)) : (sortedIntKeys m).Nodup :=
  dedup_sort_nodup _

theorem mem_sortedIntKeys {β : Type} {m : List (Int × β)} {k : Int} :
    k ∈ sortedIntKeys m ↔ k ∈ m.map Prod.fst :=
  mem_dedup_sort

theorem sortedStrKeys_nodup {β : Type} (m : List (String × β)) : (sortedStrKeys m).Nodup :=
  dedup_sort_nodup _

theorem mem_sortedStrKeys {β : Type} {m : List (String × β)} {k : String} :
    k ∈ sortedStrKeys m ↔ k ∈ m.map Prod.fst :=
  mem_dedup_sort

end SortedKeyLemmas

section RelistLemmas

variable {α β : Type} [DecidableEq α]

theorem relist_map_fst (ks : List α) (m : List (α × β)) (dflt : β) :
    (relist ks m dflt).map Prod.fst = ks := by
  induction ks with
  | nil => rfl
  | cons x xs ih => simpa [relist] using ih

theorem plookup_relist {ks : List α} {m : List (α × β)} (dflt : β)
    (hmem : ∀ k, k ∈ ks ↔ k ∈ m.map Prod.fst) (k : α) :
    plookup (relist ks m dflt) k = plookup m k := by
  rw [relist, plookup_map_self]
  by_cases h : k ∈ ks
  · obtain ⟨v, hv⟩ := plookup_mem_keys ((hmem k).mp h)
    simp [h, hv]
  · have : plookup m k = none := (plookup_eq_none_iff m k).mpr (fun hm => h ((hmem k).mpr hm))
    simp [h, this]

theorem relist_keys_nodup {ks : List α} (m : List (α × β)) (dflt : β)
    (h : ks.Nodup) : ((relist ks m dflt).map Prod.fst).Nodup := by
  rw [relist_map_fst]; exact h

end RelistLemmas

section DecimalLemmas

theorem decDigit_digitChar {d : Nat} (h : d < 10) :
    decDigit (Nat.digitChar d) = some d := by
  interval_cases d <;> decide

theorem digitChar_ne_sign {d : Nat} (h : d < 10) :
    Nat.digitChar d ≠ '-' ∧ Nat.digitChar d ≠ '+' := by
  interval_cases d <;> decide

theorem digitChar_ne_zero_char {d : Nat} (h1 : d < 10) (h2 : d ≠ 0) :
    Nat.digitChar d ≠ '0' := by
  interval_cases d
  · exact absurd rfl h2
  all_goals decide

theorem digitsVal_foldl (ds : List Nat) (hds : ∀ d ∈ ds, d < 10) :
    ∀ a : Nat,
      (ds.map Nat.digitChar).foldl
        (fun acc c =>
          match acc, decDigit c with
          | some x, some d => some (x * 10 + d)
          | _, _ => none)
        (some a)
      = some (a * 10 ^ ds.length + Nat.ofDigits 10 ds.reverse) := by
  induction ds with
  | nil => intro a; simp [Nat.ofDigits]
  | cons d ds ih =>
    intro a
    have hd : d < 10 := hds d (by simp)
    have hrest : ∀ x ∈ ds, x < 10 := fun x hx => hds x (by simp [hx])
    simp only [List.map_cons, List.foldl_cons, decDigit_digitChar hd]
    rw [ih hrest (a * 10 + d)]
    congr 1
    rw [List.reverse_cons, Nat.ofDigits_append]
    simp only [List.length_cons, List.length_reverse, Nat.ofDigits_singleton]
    ring

theorem digitsVal_map_digitChar (ds : List Nat) (hds : ∀ d ∈ ds, d < 10)
    (hne : ds ≠ []) :
    digitsVal decDigit 10 (ds.map Nat.digitChar) = some (Nat.ofDigits 10 ds.reverse) := by
  obtain ⟨d, t, rfl⟩ := List.exists_cons_of_ne_nil hne
  have := digitsVal_foldl (d :: t) hds 0
  simpa [digitsVal] using this

theorem natDigitsRev_eq_digits (base : Nat) (hb : 2 ≤ base) :
    ∀ fuel n, n ≤ fuel → natDigitsRev base fuel n = Nat.digits base n := by
  intro fuel
  induction fuel with
  | zero =>
    intro n hn
    have h0 : n = 0 := Nat.le_zero.mp hn
    subst h0
    simp [natDigitsRev]
  | succ fuel ih =>
    intro n hn
    by_cases h0 : n = 0
    · subst h0; simp [natDigitsRev]
    · rw [natDigitsRev, if_neg h0,
        Nat.digits_def' (by omega : 1 < base) (Nat.pos_of_ne_zero h0)]
      congr 1
      have hdiv : n / base < n := Nat.div_lt_self (Nat.pos_of_ne_zero h0) (by omega)
      exact ih (n / base) (by omega)

theorem natDecRepr_eq_digits (n : Nat) (h0 : n ≠ 0) :
    natDecRepr n = (((Nat.digits 10 n).map Nat.digitChar).reverse).asString := by
  rw [natDecRepr, if_neg h0, natDigitsRev_eq_digits 10 (by norm_num) n n le_rfl]

theorem natDecRepr_shape (n : Nat) (h0 : n ≠ 0) :
    ∃ d t, (natDecRepr n).toList = (d :: t).map Nat.digitChar ∧
      (∀ x ∈ d :: t, x < 10) ∧ d ≠ 0 ∧ (d :: t).reverse = Nat.digits 10 n := by
  have hne : Nat.digits 10 n ≠ [] := Nat.digits_ne_nil_iff_ne_zero.mpr h0
  have hrne : (Nat.digits 10 n).reverse ≠ [] := fun h => hne (List.reverse_eq_nil_iff.mp h)
  obtain ⟨d, t, ht⟩ := List.exists_cons_of_ne_nil hrne
  have hlt : ∀ x ∈ Nat.digits 10 n, x < 10 := fun x hx =>
    Nat.digits_lt_base (by norm_num) hx
  refine ⟨d, t, ?_, ?_, ?_, ?_⟩
  · show (natDecRepr n).toList = (d :: t).map Nat.digitChar
    rw [natDecRepr_eq_digits n h0]
    show ((Nat.digits 10 n).map Nat.digitChar).reverse = (d :: t).map Nat.digitChar
    rw [← List.map_reverse, ht]
  · intro x hx
    exact hlt x (by rw [← List.mem_reverse, ht]; exact hx)
  · have hd0 : (Nat.digits 10 n).getLast? = some d := by
      rw [← List.head?_reverse, ht]; rfl
    have h2 := (List.getLast?_eq_getLast _ hne).symm.trans hd0
    exact Option.some.inj h2 ▸ Nat.getLast_digit_ne_zero 10 h0
  · rw [← ht, List.reverse_reverse]

theorem natBase0_natDecRepr (n : Nat) : natBase0 (natDecRepr n).toList = some n := by
  by_cases h0 : n = 0
  · subst h0; rfl
  obtain ⟨d, t, hshape, hlt, hd0, hrev⟩ := natDecRepr_shape n h0
  rw [hshape]
  have hdigits : digitsVal decDigit 10 ((d :: t).map Nat.digitChar) = some n := by
    rw [digitsVal_map_digitChar (d :: t) hlt (by simp), hrev, Nat.ofDigits_digits]
  have hdchar : Nat.digitChar d ≠ '0' := digitChar_ne_zero_char (hlt d (by simp)) hd0
  rw [natBase0.eq_def]
  split
  · rename_i x rest heq
    rw [List.map_cons] at heq
    exact absurd (List.head_eq_of_cons_eq heq) hdchar
  · rename_i hno
    exact hdigits

theorem pyIntBase0_intDecRepr (i : Int) : pyIntBase0 (intDecRepr i) = some i := by
  by_cases hneg : i < 0
  · rw [intDecRepr, if_pos hneg]
    have htl : ("-" ++ natDecRepr i.natAbs).toList = '-' :: (natDecRepr i.natAbs).toList := rfl
    rw [pyIntBase0.eq_def, htl]
    split
    · rename_i rest heq
      injection heq with h1 h2
      rw [← h2, natBase0_natDecRepr]
      exact congrArg some (by show -(i.natAbs : Int) = i; omega)
    · rename_i rest heq
      injection heq with h1 h2
      exact absurd h1 (by decide)
    · rename_i hno1 hno2
      exact absurd rfl (hno1 (natDecRepr i.natAbs).toList)
  · rw [intDecRepr, if_neg hneg]
    have hd : ∃ d cs, (natDecRepr i.toNat).toList = Nat.digitChar d :: cs ∧ d < 10 := by
      by_cases h0 : i.toNat = 0
      · exact ⟨0, [], by rw [h0]; rfl, by norm_num⟩
      · obtain ⟨d, t, hshape, hlt, _, _⟩ := natDecRepr_shape i.toNat h0
        exact ⟨d, t.map Nat.digitChar, by simpa using hshape, hlt d (by simp)⟩
    obtain ⟨d, cs, hcs, hdlt⟩ := hd
    obtain ⟨hm, hp⟩ := digitChar_ne_sign hdlt
    have hb : natBase0 (natDecRepr i.toNat).toList = some i.toNat := natBase0_natDecRepr i.toNat
    rw [pyIntBase0.eq_def, hcs]
    rw [hcs] at hb
    split
    · rename_i rest heq
      injection heq with h1 h2
      exact absurd h1 hm
    · rename_i rest heq
      injection heq with h1 h2
      exact absurd h1 hp
    · rw [hb]
      exact congrArg some (by show ((i.toNat : Int)) = i; omega)

end DecimalLemmas

section RoundTripLemmas

theorem parse_int_intDecRepr (i : Int) : parse_int (.str (intDecRepr i)) 0 = .ok i := by
  simp [parse_int, pyIntBase0_intDecRepr]

theorem format_address_map_eq (m : List (Int × String)) :
    format_address_map m =
      (relist (sortedIntKeys m) m "").map (fun kv => (intDecRepr kv.1, Json.str kv.2)) := by
  rw [format_address_map, relist, List.map_map]
  apply List.map_congr_left
  intro a ha
  obtain ⟨v, hv⟩ := plookup_mem_keys (mem_sortedIntKeys.mp ha)
  simp [hv, Function.comp]

theorem parse_address_map_go_repr (entries : List (Int × String)) :
    ∀ acc, parse_address_map_go (entries.map (fun kv => (intDecRepr kv.1, Json.str kv.2))) acc
      = .ok (entries.foldl (fun m kv => pyInsert m kv.1 kv.2) acc) := by
  induction entries with
  | nil => intro acc; rfl
  | cons kv rest ih =>
    intro acc
    obtain ⟨k, v⟩ := kv
    simp only [List.map_cons, parse_address_map_go, parse_int_intDecRepr, List.foldl_cons,
      parse_str]
    exact ih _

theorem parse_address_map_format (m : List (Int × String)) :
    parse_address_map (.obj (format_address_map m)) = .ok (relist (sortedIntKeys m) m "") := by
  have h1 : parse_address_map (.obj (format_address_map m)) =
      parse_address_map_go (format_address_map m) [] := rfl
  rw [h1, format_address_map_eq, parse_address_map_go_repr]
  rw [foldl_pyInsert_append _ [] (fun kv _ => rfl)
    (relist_keys_nodup m "" (sortedIntKeys_nodup m))]
  rfl

theorem format_sections_eq (values : List (String × BnidaSection)) :
    format_sections values =
      (relist (sortedStrKeys values) values ⟨0, 0⟩).map
        (fun kv => (kv.1, Json.obj [("start", .num kv.2.start), ("end", .num kv.2.«end»)])) := by
  rw [format_sections, relist, List.map_map]
  apply List.map_congr_left
  intro a ha
  obtain ⟨v, hv⟩ := plookup_mem_keys (mem_sortedStrKeys.mp ha)
  simp [hv, Function.comp]

theorem parse_sections_go_repr (entries : List (String × BnidaSection)) :
    ∀ acc, parse_sections_go
        (entries.map
          (fun kv => (kv.1, Json.obj [("start", .num kv.2.start), ("end", .num kv.2.«end»)]))) acc
      = .ok (entries.foldl (fun m kv => pyInsert m kv.1 kv.2) acc) := by
  induction entries with
  | nil => intro acc; rfl
  | cons kv rest ih =>
    intro acc
    obtain ⟨k, v⟩ := kv
    simp only [List.map_cons, parse_sections_go, as_mapping, plookup, List.foldl_cons]
    norm_num [parse_int]
    exact ih _

theorem parse_sections_format (values : List (String × BnidaSection)) :
    parse_sections (.obj (format_sections values)) =
      .ok (relist (sortedStrKeys values) values ⟨0, 0⟩) := by
  have h1 : parse_sections (.obj (format_sections values)) =
      parse_sections_go (format_sections values) [] := rfl
  rw [h1, format_sections_eq, parse_sections_go_repr]
  rw [foldl_pyInsert_append _ [] (fun kv _ => rfl)
    (relist_keys_nodup values ⟨0, 0⟩ (sortedStrKeys_nodup values))]
  rfl

theorem format_struct_members_eq (members : List (String × BnidaStructMember)) :
    format_struct_members members =
      (relist (sortedStrKeys members) members ⟨0, 0, ""⟩).map
        (fun kv => (kv.1,
          Json.obj [("offset", .num kv.2.offset), ("size", .num kv.2.size),
            ("type", .str kv.2.type)])) := by
  rw [format_struct_members, relist, List.map_map]
  apply List.map_congr_left
  intro a ha
  obtain ⟨v, hv⟩ := plookup_mem_keys (mem_sortedStrKeys.mp ha)
  simp [hv, Function.comp]

theorem parse_members_go_repr (entries : List (String × BnidaStructMember)) :
    ∀ acc, parse_members_go
        (entries.map
          (fun kv => (kv.1,
            Json.obj [("offset", .num kv.2.offset), ("size", .num kv.2.size),
              ("type", .str kv.2.type)]))) acc
      = .ok (entries.foldl (fun m kv => pyInsert m kv.1 kv.2) acc) := by
  induction entries with
  | nil => intro acc; rfl
  | cons kv rest ih =>
    intro acc
    obtain ⟨k, v⟩ := kv
    simp only [List.map_cons, parse_members_go, parse_struct_member, as_mapping, plookup,
      List.foldl_cons]
    norm_num [parse_int, parse_str]
    exact ih _

theorem parse_members_format (members : List (String × BnidaStructMember)) :
    parse_members_go (format_struct_members members) [] =
      .ok (relist (sortedStrKeys members) members ⟨0, 0, ""⟩) := by
  rw [format_struct_members_eq, parse_members_go_repr]
  rw [foldl_pyInsert_append _ [] (fun kv _ => rfl)
    (relist_keys_nodup members ⟨0, 0, ""⟩ (sortedStrKeys_nodup members))]
  rfl

theorem format_structs_eq (values : List (String × BnidaStruct)) :
    format_structs values =
      (relist (sortedStrKeys values) values ⟨0, []⟩).map
        (fun kv => (kv.1,
          Json.obj [("size", .num kv.2.size),
            ("members", .obj (format_struct_members kv.2.members))])) := by
  rw [format_structs, relist, List.map_map]
  apply List.map_congr_left
  intro a ha
  obtain ⟨v, hv⟩ := plookup_mem_keys (mem_sortedStrKeys.mp ha)
  simp [hv, Function.comp]

theorem parse_structs_go_repr (entries : List (String × BnidaStruct)) :
    ∀ acc, parse_structs_go
        (entries.map
          (fun kv => (kv.1,
            Json.obj [("size", .num kv.2.size),
              ("members", .obj (format_struct_members kv.2.members))]))) acc
      = .ok (entries.foldl (fun m kv => pyInsert m kv.1 (structParsed kv.2)) acc) := by
  induction entries with
  | nil => intro acc; rfl
  | cons kv rest ih =>
    intro acc
    obtain ⟨k, v⟩ := kv
    have hsz : plookup [("size", Json.num v.size),
        ("members", Json.obj (format_struct_members v.members))] "size" =
        some (Json.num v.size) := rfl
    have hmem : plookup [("size", Json.num v.size),
        ("members", Json.obj (format_struct_members v.members))] "members" =
        some (Json.obj (format_struct_members v.members)) := rfl
    simp only [List.map_cons, parse_structs_go, as_mapping, hsz, hmem, Option.getD_some,
      parse_int, List.foldl_cons]
    rw [parse_members_format]
    exact ih _

theorem parse_structs_format (values : List (String × BnidaStruct)) :
    parse_structs (.obj (format_structs values)) =
      .ok ((relist (sortedStrKeys values) values ⟨0, []⟩).map
        (fun kv => (kv.1, structParsed kv.2))) := by
  have h1 : parse_structs (.obj (format_structs values)) =
      parse_structs_go (format_structs values) [] := rfl
  rw [h1, format_structs_eq, parse_structs_go_repr]
  rw [← List.foldl_map (fun kv : String × BnidaStruct => (kv.1, structParsed kv.2))
    (fun m kv => pyInsert m kv.1 kv.2)]
  rw [foldl_pyInsert_append _ [] (fun kv _ => rfl) ?hnd]
  · rfl
  case hnd =>
    have : ((relist (sortedStrKeys values) values ⟨0, []⟩).map
        (fun kv => (kv.1, structParsed kv.2))).map Prod.fst =
        (relist (sortedStrKeys values) values ⟨0, []⟩).map Prod.fst := by
      simp [List.map_map, Function.comp]
    rw [this]
    exact relist_keys_nodup values ⟨0, []⟩ (sortedStrKeys_nodup values)

theorem parse_int_list_num (ns : List Int) : parse_int_list (ns.map Json.num) = .ok ns := by
  induction ns with
  | nil => rfl
  | cons n rest ih => simp [parse_int_list, parse_int, ih]

theorem parse_address_list_num (ns : List Int) :
    parse_address_list (.arr (ns.map Json.num)) = .ok ns := by
  simp [parse_address_list, parse_int_list_num]

theorem StructEquiv_structParsed (st : BnidaStruct) : StructEquiv (structParsed st) st :=
  ⟨rfl, fun k => plookup_relist _ (fun _ => mem_sortedStrKeys) k⟩

theorem normalize_merge_ok (raw : List (String × Json)) (S : BnidaData) :
    normalize_bnida (merge_bnida raw S) = .ok
      { sections := relist (sortedStrKeys S.sections) S.sections ⟨0, 0⟩
        names := relist (sortedIntKeys S.names) S.names ""
        functions := S.functions.insertionSort (fun a b => a ≤ b)
        func_comments := relist (sortedIntKeys S.func_comments) S.func_comments ""
        line_comments := relist (sortedIntKeys S.line_comments) S.line_comments ""
        structs := (relist (sortedStrKeys S.structs) S.structs ⟨0, []⟩).map
          (fun kv => (kv.1, structParsed kv.2)) } := by
  have hsec : rawGet (merge_bnida raw S) "sections" (.obj []) =
      .obj (format_sections S.sections) := rfl
  have hnames : rawGet (merge_bnida raw S) "names" (.obj []) =
      .obj (format_address_map S.names) := rfl
  have hfun : rawGet (merge_bnida raw S) "functions" (.arr []) =
      .arr ((S.functions.insertionSort (fun a b => a ≤ b)).map Json.num) := rfl
  have hfc : rawGet (merge_bnida raw S) "func_comments" (.obj []) =
      .obj (format_address_map S.func_comments) := rfl
  have hlc : rawGet (merge_bnida raw S) "line_comments" (.obj []) =
      .obj (format_address_map S.line_comments) := rfl
  have hstr : rawGet (merge_bnida raw S) "structs" (.obj []) =
      .obj (format_structs S.structs) := rfl
  rw [normalize_bnida, hsec, hnames, hfun, hfc, hlc, hstr, parse_sections_format,
    parse_address_map_format, parse_address_list_num, parse_address_map_format,
    parse_address_map_format, parse_structs_format]

end RoundTripLemmas

section ClaimC1

/-- C1 (counterexample): the round trip is not the identity on every
AnnotationSet.  The store normalized from `{"functions": [2, 1]}` keeps
its functions list in input order, but serializing it and normalizing the
output yields the sorted list `[1, 2]`, a different AnnotationSet. -/
theorem roundtrip_counterexample_unsorted_functions :
    normalize_bnida [("functions", Json.arr [.num 2, .num 1])] =
      .ok { sections := [], names := [], functions := [2, 1], func_comments := [],
            line_comments := [], structs := [] } ∧
    normalize_bnida (merge_bnida [("functions", Json.arr [.num 2, .num 1])]
        { sections := [], names := [], functions := [2, 1], func_comments := [],
          line_comments := [], structs := [] }) =
      .ok { sections := [], names := [], functions := [1, 2], func_comments := [],
            line_comments := [], structs := [] } ∧
    ¬ BnidaDataEquiv
      { sections := [], names := [], functions := [1, 2], func_comments := [],
        line_comments := [], structs := [] }
      { sections := [], names := [], functions := [2, 1], func_comments := [],
        line_comments := [], structs := [] } := by
  refine ⟨rfl, rfl, ?_⟩
  intro h
  have hf := h.2.2.1
  simp at hf

/-- C1 (amended): for every raw document and every AnnotationSet `S`
whose functions list is sorted (non-decreasing), normalizing the
serialization of `S` succeeds and yields an AnnotationSet equal to `S`
under Python equality — extensional on every dict table, literal on the
functions list. -/
theorem normalize_after_merge_roundtrip (raw : List (String × Json)) (S : BnidaData)
    (h : S.functions.Sorted (fun a b => a ≤ b)) :
    ∃ T, normalize_bnida (merge_bnida raw S) = .ok T ∧ BnidaDataEquiv T S := by
  refine ⟨_, normalize_merge_ok raw S, ?_, ?_, ?_, ?_, ?_, ?_⟩
  · exact fun k => plookup_relist _ (fun _ => mem_sortedStrKeys) k
  · exact fun k => plookup_relist _ (fun _ => mem_sortedIntKeys) k
  · exact List.Sorted.insertionSort_eq h
  · exact fun k => plookup_relist _ (fun _ => mem_sortedIntKeys) k
  · exact fun k => plookup_relist _ (fun _ => mem_sortedIntKeys) k
  · intro k
    have hmap : (relist (sortedStrKeys S.structs) S.structs ⟨0, []⟩).map
        (fun kv => (kv.1, structParsed kv.2)) =
        (sortedStrKeys S.structs).map
          (fun k2 => (k2, structParsed ((plookup S.structs k2).getD ⟨0, []⟩))) := by
      rw [relist, List.map_map]; rfl
    show OptionRel StructEquiv
      (plookup ((relist (sortedStrKeys S.structs) S.structs ⟨0, []⟩).map
        (fun kv => (kv.1, structParsed kv.2))) k) (plookup S.structs k)
    rw [hmap, plookup_map_self]
    by_cases hk : k ∈ sortedStrKeys S.structs
    · obtain ⟨st, hst⟩ := plookup_mem_keys (mem_sortedStrKeys.mp hk)
      rw [if_pos hk, hst]
      simpa [hst] using StructEquiv_structParsed st
    · rw [if_neg hk]
      have hnone : plookup S.structs k = none :=
        (plookup_eq_none_iff _ _).mpr (fun hm => hk (mem_sortedStrKeys.mpr hm))
      rw [hnone]
      trivial

/-- C1 witness: the round trip at the concrete example store, whose
functions list `[4096, 4112, 4128]` is sorted. -/
theorem normalize_after_merge_roundtrip_witness :
    exampleData.functions.Sorted (fun a b => a ≤ b) ∧
    ∃ T, normalize_bnida (merge_bnida [] exampleData) = .ok T ∧
      BnidaDataEquiv T exampleData :=
  ⟨by decide, normalize_after_merge_roundtrip [] exampleData (by decide)⟩

end ClaimC1

section QueryLemmas

theorem take_takeWhile_length {α : Type} (l : List α) (p : α → Bool) :
    l.take (l.takeWhile p).length = l.takeWhile p := by
  induction l with
  | nil => rfl
  | cons x xs ih =>
    by_cases h : p x
    · simp [List.takeWhile_cons, h, ih]
    · simp [List.takeWhile_cons, h]

theorem drop_takeWhile_length {α : Type} (l : List α) (p : α → Bool) :
    l.drop (l.takeWhile p).length = l.dropWhile p := by
  induction l with
  | nil => rfl
  | cons x xs ih =>
    by_cases h : p x
    · simp [List.takeWhile_cons, List.dropWhile_cons, h, ih]
    · simp [List.takeWhile_cons, List.dropWhile_cons, h]

theorem sorted_takeWhile_eq_filter {l : List Int} {a : Int}
    (hs : l.Sorted (fun x y => x ≤ y)) :
    l.takeWhile (fun y => y < a) = l.filter (fun y => y < a) := by
  induction l with
  | nil => rfl
  | cons x xs ih =>
    rw [List.sorted_cons] at hs
    by_cases h : x < a
    · simp [List.takeWhile_cons, List.filter_cons, h, ih hs.2]
    · simp only [List.takeWhile_cons, List.filter_cons]
      simp [h, List.filter_eq_nil_iff]
      exact fun y hy => by have := hs.1 y hy; omega

theorem sorted_dropWhile_eq_filter {l : List Int} {a : Int}
    (hs : l.Sorted (fun x y => x ≤ y)) :
    l.dropWhile (fun y => y < a) = l.filter (fun y => a ≤ y) := by
  induction l with
  | nil => rfl
  | cons x xs ih =>
    rw [List.sorted_cons] at hs
    by_cases h : x < a
    · have hna : ¬ (a ≤ x) := by omega
      simp [List.dropWhile_cons, List.filter_cons, h, hna, ih hs.2]
    · have ha : a ≤ x := by omega
      have hall : ∀ y ∈ xs, a ≤ y := fun y hy => le_trans ha (hs.1 y hy)
      have hfeq : xs.filter (fun y => decide (a ≤ y)) = xs :=
        List.filter_eq_self.mpr (fun y hy => by simpa using hall y hy)
      simp [List.dropWhile_cons, List.filter_cons, h, ha, hfeq]

theorem sorted_filter_le_of_mem {l : List Int} {a : Int}
    (hs : l.Sorted (fun x y => x < y)) (ha : a ∈ l) :
    l.filter (fun y => a ≤ y) = a :: l.filter (fun y => a < y) := by
  induction l with
  | nil => cases ha
  | cons x xs ih =>
    rw [List.sorted_cons] at hs
    rcases List.mem_cons.mp ha with rfl | hmem
    · rw [List.filter_cons_of_pos (by simp), List.filter_cons_of_neg (by simp)]
      congr 1
      exact List.filter_congr (fun y hy => by
        have := hs.1 y hy
        simp only [decide_eq_decide]
        omega)
    · have hxa : x < a := hs.1 a hmem
      rw [List.filter_cons_of_neg (by simp; omega), List.filter_cons_of_neg (by simp; omega)]
      exact ih hs.2 hmem

theorem sorted_filter_le_of_not_mem {l : List Int} {a : Int} (ha : a ∉ l) :
    l.filter (fun y => a ≤ y) = l.filter (fun y => a < y) :=
  List.filter_congr (fun y hy => by
    have hne : y ≠ a := fun h => ha (h ▸ hy)
    simp only [decide_eq_decide]
    omega)

theorem collect_addresses_sorted (data : BnidaData) :
    (collect_addresses data).Sorted (fun x y => x ≤ y) :=
  dedup_sort_sorted _

theorem collect_addresses_nodup (data : BnidaData) : (collect_addresses data).Nodup :=
  dedup_sort_nodup _

theorem collect_addresses_sorted_lt (data : BnidaData) :
    (collect_addresses data).Sorted (fun x y => x < y) :=
  ((collect_addresses_sorted data).and (collect_addresses_nodup data)).imp
    (fun hab => lt_of_le_of_ne hab.1 hab.2)

theorem sorted_get_bisect {l : List Int} {a : Int} (hs : l.Sorted (fun x y => x < y)) :
    l.get? (bisect_left l a) = some a ↔ a ∈ l := by
  have hsle : l.Sorted (fun x y => x ≤ y) := hs.imp le_of_lt
  have hdrop : l.drop (bisect_left l a) = l.filter (fun y => a ≤ y) := by
    rw [bisect_left, drop_takeWhile_length, sorted_dropWhile_eq_filter hsle]
  have hget : l.get? (bisect_left l a) = (l.filter (fun y => a ≤ y)).head? := by
    rw [List.get?_eq_getElem?, ← List.head?_drop, hdrop]
  rw [hget]
  constructor
  · intro h
    cases hf : l.filter (fun y => a ≤ y) with
    | nil => rw [hf] at h; cases h
    | cons x t =>
      rw [hf] at h
      have hx : x = a := by simpa using h
      subst hx
      exact (List.mem_filter.mp (hf ▸ List.mem_cons_self x t)).1
  · intro h
    rw [sorted_filter_le_of_mem hs h]
    rfl

theorem build_index_snd (doc : BnidaDocument) :
    (build_index doc).2 = collect_addresses doc.data := rfl

theorem build_index_entries_eq (doc : BnidaDocument) :
    (build_index doc).1 = (collect_addresses doc.data).map
      (fun x => (x, address_entry doc.data x)) := by
  show ((collect_addresses doc.data).map (address_entry doc.data)).map
      (fun e => (e.address, e)) = _
  rw [List.map_map]
  rfl

theorem lookup_entry_eq {doc : BnidaDocument} {x : Int}
    (hx : x ∈ collect_addresses doc.data) :
    lookup_entry (build_index doc).1 x = address_entry doc.data x := by
  rw [lookup_entry, build_index_entries_eq, plookup_map_self, if_pos hx]
  rfl

end QueryLemmas

section QueryWindows

theorem query_before_eq (doc : BnidaDocument) (a : Int) (b f : Nat) :
    (query_address doc a b f).before =
      (((collect_addresses doc.data).filter (fun y => y < a)).drop
        (((collect_addresses doc.data).filter (fun y => y < a)).length - b)).map
        (address_entry doc.data) := by
  have hsle := collect_addresses_sorted doc.data
  have htake : (collect_addresses doc.data).take (bisect_left (collect_addresses doc.data) a)
      = (collect_addresses doc.data).filter (fun y => y < a) := by
    rw [bisect_left, take_takeWhile_length, sorted_takeWhile_eq_filter hsle]
  have hidx : bisect_left (collect_addresses doc.data) a =
      ((collect_addresses doc.data).filter (fun y => y < a)).length := by
    rw [bisect_left, sorted_takeWhile_eq_filter hsle]
  simp only [query_address, build_index_snd]
  rw [apply_ite QueryResult.before]
  show (if _ = some a then _ else _) = _
  rw [ite_self, htake, hidx]
  show List.map (lookup_entry (build_index doc).1) _ = _
  apply List.map_congr_left
  intro x hx
  exact lookup_entry_eq (List.mem_of_mem_filter (List.mem_of_mem_drop hx))

theorem query_exact_eq (doc : BnidaDocument) (a : Int) (b f : Nat)
    (hmem : a ∈ collect_addresses doc.data) :
    (query_address doc a b f).current = address_entry doc.data a ∧
    (query_address doc a b f).after =
      (((collect_addresses doc.data).filter (fun y => a < y)).take f).map
        (address_entry doc.data) := by
  have hsle := collect_addresses_sorted doc.data
  have hslt := collect_addresses_sorted_lt doc.data
  have hcond : (collect_addresses doc.data).get? (bisect_left (collect_addresses doc.data) a)
      = some a := (sorted_get_bisect hslt).mpr hmem
  have hdropidx : (collect_addresses doc.data).drop (bisect_left (collect_addresses doc.data) a)
      = (collect_addresses doc.data).filter (fun y => a ≤ y) := by
    rw [bisect_left, drop_takeWhile_length, sorted_dropWhile_eq_filter hsle]
  have hfsplit : (collect_addresses doc.data).filter (fun y => a ≤ y)
      = a :: (collect_addresses doc.data).filter (fun y => a < y) :=
    sorted_filter_le_of_mem hslt hmem
  have hdrop1 : (collect_addresses doc.data).drop (bisect_left (collect_addresses doc.data) a + 1)
      = (collect_addresses doc.data).filter (fun y => a < y) := by
    rw [← List.drop_drop, hdropidx, hfsplit]
    rfl
  constructor
  · simp only [query_address, build_index_snd]
    rw [if_pos hcond]
    exact lookup_entry_eq hmem
  · simp only [query_address, build_index_snd]
    rw [if_pos hcond]
    show ((_ : List Int).take f).map _ = _
    rw [hdrop1]
    apply List.map_congr_left
    intro x hx
    exact lookup_entry_eq (List.mem_of_mem_filter (List.mem_of_mem_take hx))

theorem query_miss_eq (doc : BnidaDocument) (a : Int) (b f : Nat)
    (hmem : a ∉ collect_addresses doc.data) :
    (query_address doc a b f).current = bare_entry a ∧
    (query_address doc a b f).after =
      (((collect_addresses doc.data).filter (fun y => a ≤ y)).take f).map
        (address_entry doc.data) := by
  have hsle := collect_addresses_sorted doc.data
  have hslt := collect_addresses_sorted_lt doc.data
  have hcond : ¬ ((collect_addresses doc.data).get?
      (bisect_left (collect_addresses doc.data) a) = some a) :=
    fun h => hmem ((sorted_get_bisect hslt).mp h)
  have hdropidx : (collect_addresses doc.data).drop (bisect_left (collect_addresses doc.data) a)
      = (collect_addresses doc.data).filter (fun y => a ≤ y) := by
    rw [bisect_left, drop_takeWhile_length, sorted_dropWhile_eq_filter hsle]
  constructor
  · simp only [query_address, build_index_snd]
    rw [if_neg hcond]
  · simp only [query_address, build_index_snd]
    rw [if_neg hcond]
    show ((_ : List Int).take f).map _ = _
    rw [hdropidx]
    apply List.map_congr_left
    intro x hx
    exact lookup_entry_eq (List.mem_of_mem_filter (List.mem_of_mem_take hx))

end QueryWindows

section ClaimC2

/-- C2: for every store and query address `a` with window sizes `b`, `f`:
on an exact match, `current` is the full entry for `a`, `before` holds the
last up-to-`b` recorded addresses strictly below `a`, `after` the first
up-to-`f` strictly above, and `a` is in neither window; on a miss,
`current` is the bare synthetic entry and `after` starts at the insertion
point itself (the first recorded address at or after `a`).  Both windows
truncate silently. -/
theorem query_address_windows (doc : BnidaDocument) (a : Int) (b f : Nat) :
    (a ∈ collect_addresses doc.data → ExactQuerySpec doc a b f) ∧
    (a ∉ collect_addresses doc.data → MissQuerySpec doc a b f) := by
  have hbefore := query_before_eq doc a b f
  have hblen : (query_address doc a b f).before.length ≤ b := by
    rw [hbefore]
    simp only [List.length_map, List.length_drop]
    omega
  have hstrictb : ∀ e ∈ (query_address doc a b f).before, e.address < a := by
    intro e he
    rw [hbefore] at he
    obtain ⟨x, hx, rfl⟩ := List.mem_map.mp he
    have hxf := (List.mem_filter.mp (List.mem_of_mem_drop hx)).2
    have hxa : x < a := by simpa using hxf
    exact hxa
  have hnb : a ∉ (query_address doc a b f).before.map AddressEntry.address := by
    intro hmem2
    obtain ⟨e, he, heq⟩ := List.mem_map.mp hmem2
    have := hstrictb e he
    omega
  constructor
  · intro hmem
    obtain ⟨hcur, hafter⟩ := query_exact_eq doc a b f hmem
    have halen : (query_address doc a b f).after.length ≤ f := by
      rw [hafter]
      simp only [List.length_map, List.length_take]
      omega
    have hstricta : ∀ e ∈ (query_address doc a b f).after, a < e.address := by
      intro e he
      rw [hafter] at he
      obtain ⟨x, hx, rfl⟩ := List.mem_map.mp he
      have hxf := (List.mem_filter.mp (List.mem_of_mem_take hx)).2
      have hxa : a < x := by simpa using hxf
      exact hxa
    have hna : a ∉ (query_address doc a b f).after.map AddressEntry.address := by
      intro hmem2
      obtain ⟨e, he, heq⟩ := List.mem_map.mp hmem2
      have := hstricta e he
      omega
    exact ⟨hcur, hbefore, hafter, hblen, halen, hstrictb, hstricta, hnb, hna⟩
  · intro hmem
    obtain ⟨hcur, hafter⟩ := query_miss_eq doc a b f hmem
    have halen : (query_address doc a b f).after.length ≤ f := by
      rw [hafter]
      simp only [List.length_map, List.length_take]
      omega
    have hstricta : ∀ e ∈ (query_address doc a b f).after, a ≤ e.address := by
      intro e he
      rw [hafter] at he
      obtain ⟨x, hx, rfl⟩ := List.mem_map.mp he
      have hxf := (List.mem_filter.mp (List.mem_of_mem_take hx)).2
      have hxa : a ≤ x := by simpa using hxf
      exact hxa
    exact ⟨hcur, hbefore, hafter, hblen, halen, hstrictb, hstricta⟩

/-- C2 witness: the spec's worked example — querying 0x1010 with a
symmetric window of 1 in the three-function store sees 0x1000 before and
0x1020 after. -/
theorem query_address_windows_witness :
    (4112 : Int) ∈ collect_addresses (BnidaDocument.mk [] exampleData).data ∧
    ExactQuerySpec (BnidaDocument.mk [] exampleData) 4112 1 1 :=
  ⟨by decide, (query_address_windows (BnidaDocument.mk [] exampleData) 4112 1 1).1 (by decide)⟩

end ClaimC2

section ClaimC3

/-- C3: on the empty store, `add-function(0x2000, "main")` yields
`functions = [0x2000]` and `names = {0x2000: "main"}`; repeating the
identical call succeeds and returns the unchanged store (idempotent
no-op); a following `add-function(0x2000, "other")` fails with a Conflict
error, so neither the `functions` insertion nor the `names` entry is
applied and the store used afterwards is exactly the one after the first
call. -/
theorem add_function_example_chain :
    add_function emptyData 8192 "main" =
      .ok (⟨[], [(8192, "main")], [8192], [], [], []⟩ : BnidaData) ∧
    add_function (⟨[], [(8192, "main")], [8192], [], [], []⟩ : BnidaData) 8192 "main" =
      .ok (⟨[], [(8192, "main")], [8192], [], [], []⟩ : BnidaData) ∧
    add_function (⟨[], [(8192, "main")], [8192], [], [], []⟩ : BnidaData) 8192 "other" =
      .error (.overwriteError
        "name already set at 0x2000: 'main'; use rename-name to change it") :=
  ⟨rfl, rfl, rfl⟩

end ClaimC3

section ClaimC4

/-- C4: for every mutation subcommand after a successful load, a Mutation
Engine error (Conflict, NotFound, EmptyValue — all `CliErr`s) makes the
command exit 1 with the message on standard error and write nothing (the
backing file is left unchanged), while success writes the fully merged
document exactly once and exits 0 — the store is never left partially
mutated by one command. -/
theorem main_mutation_atomic (cmd : Command) (doc : BnidaDocument)
    (h : cmd.is_mutation = true) :
    (∀ e, run_mutation cmd doc.data = .error e →
      main_with_doc cmd doc =
        ⟨1, none, none, some ("error: " ++ cli_error_message e)⟩) ∧
    (∀ d2, run_mutation cmd doc.data = .ok d2 →
      main_with_doc cmd doc = ⟨0, none, some (merge_bnida doc.raw d2), none⟩) := by
  cases cmd with
  | query a b f j => simp [Command.is_mutation] at h
  | addFunction a n =>
    exact ⟨fun e he => by simp [main_with_doc, he], fun d2 hd => by simp [main_with_doc, hd]⟩
  | addVariable a n =>
    exact ⟨fun e he => by simp [main_with_doc, he], fun d2 hd => by simp [main_with_doc, hd]⟩
  | addComment a c =>
    exact ⟨fun e he => by simp [main_with_doc, he], fun d2 hd => by simp [main_with_doc, hd]⟩
  | renameName a n =>
    exact ⟨fun e he => by simp [main_with_doc, he], fun d2 hd => by simp [main_with_doc, hd]⟩
  | renameComment a c =>
    exact ⟨fun e he => by simp [main_with_doc, he], fun d2 hd => by simp [main_with_doc, hd]⟩

/-- C4 witness: the atomicity contract instantiated at a concrete
`add-function` invocation on the empty store. -/
theorem main_mutation_atomic_witness :
    Command.is_mutation (.addFunction 8192 "main") = true ∧
    ((∀ e, run_mutation (.addFunction 8192 "main") (BnidaDocument.mk [] emptyData).data
        = .error e →
      main_with_doc (.addFunction 8192 "main") (BnidaDocument.mk [] emptyData) =
        ⟨1, none, none, some ("error: " ++ cli_error_message e)⟩) ∧
    (∀ d2, run_mutation (.addFunction 8192 "main") (BnidaDocument.mk [] emptyData).data
        = .ok d2 →
      main_with_doc (.addFunction 8192 "main") (BnidaDocument.mk [] emptyData) =
        ⟨0, none, some (merge_bnida [] d2), none⟩)) :=
  ⟨rfl, main_mutation_atomic (.addFunction 8192 "main") (BnidaDocument.mk [] emptyData) rfl⟩

end ClaimC4

section ClaimC10

/-- C10: the query subcommand is read-only at the file level — `main`
prints the query result and returns 0 without ever reaching the write
path, for every queried address and window sizes, so the backing file is
left unchanged. -/
theorem query_is_readonly (a : Int) (b f : Nat) (j : Bool) (doc : BnidaDocument) :
    main_with_doc (.query a b f j) doc =
      ⟨0, some (query_address doc a b f), none, none⟩ := rfl

end ClaimC10

section ClaimC5

/-- C5 (counterexample): duplicates are not removed — the raw input
`{"functions": [3, 3]}` is stored internally as `[3, 3]` and serializes
back with the duplicate intact, so `functions` is neither stored nor
re-emitted duplicate-free. -/
theorem functions_duplicates_counterexample :
    normalize_bnida [("functions", Json.arr [.num 3, .num 3])] =
      .ok (⟨[], [], [3, 3], [], [], []⟩ : BnidaData) ∧
    plookup (merge_bnida [] (⟨[], [], [3, 3], [], [], []⟩ : BnidaData)) "functions" =
      some (.arr [.num 3, .num 3]) :=
  ⟨rfl, rfl⟩

/-- C5 (amended): `functions` is stored internally exactly as parsed
(order and multiplicity preserved: a list of integer raw entries
normalizes to itself), and serialization re-emits it as an ascending
(non-decreasing) permutation of the internal list — sorted, but with
duplicates preserved rather than removed. -/
theorem functions_serialized_sorted (raw : List (String × Json)) (data : BnidaData) :
    plookup (merge_bnida raw data) "functions" =
      some (.arr ((data.functions.insertionSort (fun a b => a ≤ b)).map Json.num)) ∧
    (data.functions.insertionSort (fun a b => a ≤ b)).Sorted (fun a b => a ≤ b) ∧
    (data.functions.insertionSort (fun a b => a ≤ b)).Perm data.functions ∧
    ∀ ns : List Int, parse_address_list (.arr (ns.map Json.num)) = .ok ns :=
  ⟨rfl, List.sorted_insertionSort _ _, List.perm_insertionSort _ _, parse_address_list_num⟩

end ClaimC5

section ClaimC6Helpers

theorem parse_address_map_go_error (pairs : List (String × Json)) (k : String) (v : Json)
    (hmem : (k, v) ∈ pairs) (hfail : pyIntBase0 k = none) :
    ∀ acc, ∃ e, parse_address_map_go pairs acc = .error e := by
  induction pairs with
  | nil => cases hmem
  | cons kv rest ih =>
    intro acc
    obtain ⟨k2, v2⟩ := kv
    rcases List.mem_cons.mp hmem with heq | hmem2
    · rw [Prod.mk.injEq] at heq
      obtain ⟨rfl, rfl⟩ := heq
      exact ⟨.valueError k, by simp [parse_address_map_go, parse_int, hfail]⟩
    · cases hp : parse_int (.str k2) 0 with
      | error e => exact ⟨e, by simp [parse_address_map_go, hp]⟩
      | ok n =>
        obtain ⟨e, he⟩ := ih hmem2 (pyInsert acc n (parse_str v2 ""))
        exact ⟨e, by simp [parse_address_map_go, hp, he]⟩

theorem parse_int_list_error (items : List Json) (s : String)
    (hmem : Json.str s ∈ items) (hfail : pyIntBase0 s = none) :
    ∃ e, parse_int_list items = .error e := by
  induction items with
  | nil => cases hmem
  | cons item rest ih =>
    rcases List.mem_cons.mp hmem with heq | hmem2
    · rw [← heq]
      exact ⟨.valueError s, by simp [parse_int_list, parse_int, hfail]⟩
    · cases hp : parse_int item 0 with
      | error e => exact ⟨e, by simp [parse_int_list, hp]⟩
      | ok n =>
        obtain ⟨e, he⟩ := ih hmem2
        exact ⟨e, by simp [parse_int_list, hp, he]⟩

theorem normalize_error_of_names_error (raw : List (String × Json)) (e0 : ParseErr)
    (h : parse_address_map (rawGet raw "names" (.obj [])) = .error e0) :
    ∃ e, normalize_bnida raw = .error e := by
  cases hsec : parse_sections (rawGet raw "sections" (.obj [])) with
  | error e => exact ⟨e, by simp [normalize_bnida, hsec]⟩
  | ok secs => exact ⟨e0, by simp [normalize_bnida, hsec, h]⟩

theorem normalize_error_of_functions_error (raw : List (String × Json)) (e0 : ParseErr)
    (h : parse_address_list (rawGet raw "functions" (.arr [])) = .error e0) :
    ∃ e, normalize_bnida raw = .error e := by
  cases hsec : parse_sections (rawGet raw "sections" (.obj [])) with
  | error e => exact ⟨e, by simp [normalize_bnida, hsec]⟩
  | ok secs =>
    cases hnm : parse_address_map (rawGet raw "names" (.obj [])) with
    | error e => exact ⟨e, by simp [normalize_bnida, hsec, hnm]⟩
    | ok nm => exact ⟨e0, by simp [normalize_bnida, hsec, hnm, h]⟩

theorem normalize_error_of_func_comments_error (raw : List (String × Json)) (e0 : ParseErr)
    (h : parse_address_map (rawGet raw "func_comments" (.obj [])) = .error e0) :
    ∃ e, normalize_bnida raw = .error e := by
  cases hsec : parse_sections (rawGet raw "sections" (.obj [])) with
  | error e => exact ⟨e, by simp [normalize_bnida, hsec]⟩
  | ok secs =>
    cases hnm : parse_address_map (rawGet raw "names" (.obj [])) with
    | error e => exact ⟨e, by simp [normalize_bnida, hsec, hnm]⟩
    | ok nm =>
      cases hfn : parse_address_list (rawGet raw "functions" (.arr [])) with
      | error e => exact ⟨e, by simp [normalize_bnida, hsec, hnm, hfn]⟩
      | ok fns => exact ⟨e0, by simp [normalize_bnida, hsec, hnm, hfn, h]⟩

theorem normalize_error_of_line_comments_error (raw : List (String × Json)) (e0 : ParseErr)
    (h : parse_address_map (rawGet raw "line_comments" (.obj [])) = .error e0) :
    ∃ e, normalize_bnida raw = .error e := by
  cases hsec : parse_sections (rawGet raw "sections" (.obj [])) with
  | error e => exact ⟨e, by simp [normalize_bnida, hsec]⟩
  | ok secs =>
    cases hnm : parse_address_map (rawGet raw "names" (.obj [])) with
    | error e => exact ⟨e, by simp [normalize_bnida, hsec, hnm]⟩
    | ok nm =>
      cases hfn : parse_address_list (rawGet raw "functions" (.arr [])) with
      | error e => exact ⟨e, by simp [normalize_bnida, hsec, hnm, hfn]⟩
      | ok fns =>
        cases hfc : parse_address_map (rawGet raw "func_comments" (.obj [])) with
        | error e => exact ⟨e, by simp [normalize_bnida, hsec, hnm, hfn, hfc]⟩
        | ok fcs => exact ⟨e0, by simp [normalize_bnida, hsec, hnm, hfn, hfc, h]⟩

theorem parse_address_map_rawGet_error (raw : List (String × Json)) (key : String)
    (pairs : List (String × Json)) (k : String) (v : Json)
    (htab : plookup raw key = some (.obj pairs)) (hkv : (k, v) ∈ pairs)
    (hfail : pyIntBase0 k = none) :
    ∃ e, parse_address_map (rawGet raw key (.obj [])) = .error e := by
  have hget : rawGet raw key (.obj []) = .obj pairs := by simp [rawGet, htab]
  obtain ⟨e, he⟩ := parse_address_map_go_error pairs k v hkv hfail []
  exact ⟨e, by rw [hget]; exact he⟩

end ClaimC6Helpers

section ClaimC6

/-- C6 (counterexample): not every unparseable address is fatal — a
`null` entry in the raw `functions` array is not an integer, a decimal
string or a hex string, yet the load succeeds and silently replaces it
with the default address 0. -/
theorem address_value_default_counterexample :
    normalize_bnida [("functions", Json.arr [.null])] =
      .ok (⟨[], [], [0], [], [], []⟩ : BnidaData) :=
  rfl

/-- C6 (amended): a malformed STRING address aborts the whole load, in
every position an address can occupy — a key of the `names`,
`func_comments` or `line_comments` table that fails `int(key, 0)`, or a
string entry of the `functions` array that fails `int(value, 0)`, makes
`normalize_bnida` return an error (address keys are always strings in
JSON, so a corrupt key is always fatal) — but an address value of
non-int, non-string JSON type is silently replaced by the default 0
rather than reported, as the `null` functions entry shows. -/
theorem address_parse_error_policy (raw : List (String × Json)) :
    (∀ pairs k v, plookup raw "names" = some (.obj pairs) → (k, v) ∈ pairs →
      pyIntBase0 k = none → ∃ e, normalize_bnida raw = .error e) ∧
    (∀ pairs k v, plookup raw "func_comments" = some (.obj pairs) → (k, v) ∈ pairs →
      pyIntBase0 k = none → ∃ e, normalize_bnida raw = .error e) ∧
    (∀ pairs k v, plookup raw "line_comments" = some (.obj pairs) → (k, v) ∈ pairs →
      pyIntBase0 k = none → ∃ e, normalize_bnida raw = .error e) ∧
    (∀ items s, plookup raw "functions" = some (.arr items) → Json.str s ∈ items →
      pyIntBase0 s = none → ∃ e, normalize_bnida raw = .error e) ∧
    normalize_bnida [("functions", Json.arr [.null])] =
      .ok (⟨[], [], [0], [], [], []⟩ : BnidaData) := by
  refine ⟨?_, ?_, ?_, ?_, rfl⟩
  · intro pairs k v htab hkv hfail
    obtain ⟨e0, he0⟩ := parse_address_map_rawGet_error raw "names" pairs k v htab hkv hfail
    exact normalize_error_of_names_error raw e0 he0
  · intro pairs k v htab hkv hfail
    obtain ⟨e0, he0⟩ :=
      parse_address_map_rawGet_error raw "func_comments" pairs k v htab hkv hfail
    exact normalize_error_of_func_comments_error raw e0 he0
  · intro pairs k v htab hkv hfail
    obtain ⟨e0, he0⟩ :=
      parse_address_map_rawGet_error raw "line_comments" pairs k v htab hkv hfail
    exact normalize_error_of_line_comments_error raw e0 he0
  · intro items s htab hmem hfail
    obtain ⟨e0, he0⟩ := parse_int_list_error items s hmem hfail
    have hlist : parse_address_list (rawGet raw "functions" (.arr [])) = .error e0 := by
      have hget : rawGet raw "functions" (.arr []) = .arr items := by simp [rawGet, htab]
      rw [hget]
      simpa [parse_address_list] using he0
    exact normalize_error_of_functions_error raw e0 hlist

/-- C6 witness: a corrupt key in each address map and a malformed string
entry in the functions array each abort the load with a parse error. -/
theorem address_parse_error_policy_witness :
    (∃ e, normalize_bnida [("names", Json.obj [("xyz", Json.str "n")])] = .error e) ∧
    (∃ e, normalize_bnida [("func_comments", Json.obj [("xyz", Json.str "c")])] = .error e) ∧
    (∃ e, normalize_bnida [("line_comments", Json.obj [("xyz", Json.str "c")])] = .error e) ∧
    (∃ e, normalize_bnida [("functions", Json.arr [Json.str "zzz"])] = .error e) :=
  ⟨(address_parse_error_policy [("names", Json.obj [("xyz", Json.str "n")])]).1
      [("xyz", Json.str "n")] "xyz" (Json.str "n") rfl (List.mem_singleton.mpr rfl) rfl,
    (address_parse_error_policy [("func_comments", Json.obj [("xyz", Json.str "c")])]).2.1
      [("xyz", Json.str "c")] "xyz" (Json.str "c") rfl (List.mem_singleton.mpr rfl) rfl,
    (address_parse_error_policy [("line_comments", Json.obj [("xyz", Json.str "c")])]).2.2.1
      [("xyz", Json.str "c")] "xyz" (Json.str "c") rfl (List.mem_singleton.mpr rfl) rfl,
    (address_parse_error_policy [("functions", Json.arr [Json.str "zzz"])]).2.2.2.1
      [Json.str "zzz"] "zzz" rfl (List.mem_singleton.mpr rfl) rfl⟩

end ClaimC6

section ClaimC7

/-- C7 (counterexample): not every create operation rejects an empty
value — `add-comment` with the empty comment on an empty slot succeeds
and stores the empty string, because the source has no emptiness check on
comments. -/
theorem add_comment_empty_counterexample :
    add_comment emptyData 4096 "" =
      .ok (⟨[], [], [], [], [(4096, "")], []⟩ : BnidaData) :=
  rfl

/-- C7 (amended): `add-function` and `add-variable` reject an empty name
outright before the conflict check — they fail with the EmptyValue error
on every store, mutating nothing, even when the slot is absent or holds a
conflicting name — while `add-comment` performs no emptiness check and
stores an empty comment whenever the slot is free. -/
theorem create_empty_value_policy (doc : BnidaData) (address : Int) :
    add_function doc address "" = .error (.cliError "name must be non-empty") ∧
    add_variable doc address "" = .error (.cliError "name must be non-empty") ∧
    (plookup doc.line_comments address = none →
      add_comment doc address "" =
        .ok { doc with line_comments := pyInsert doc.line_comments address "" }) := by
  refine ⟨rfl, rfl, fun h => ?_⟩
  simp [add_comment, ensure_comment_available, h]

/-- C7 witness: the empty-comment branch at the empty store. -/
theorem create_empty_value_policy_witness :
    plookup emptyData.line_comments 4096 = none ∧
    add_comment emptyData 4096 "" =
      .ok { emptyData with line_comments := pyInsert emptyData.line_comments 4096 "" } :=
  ⟨rfl, (create_empty_value_policy emptyData 4096).2.2 rfl⟩

end ClaimC7

section ClaimC8

/-- C8: for both rename operations, an empty replacement value on a
present slot deletes the slot (the entry becomes absent from its table),
and a subsequent rename targeting the now-absent slot fails with the
NotFound error.  The key-uniqueness hypotheses state the Python dict
invariant that each table holds a key at most once. -/
theorem rename_empty_deletes_then_notfound (doc : BnidaData) (address : Int)
    (n0 c0 : String) :
    ((doc.names.map Prod.fst).Nodup → plookup doc.names address = some n0 →
      ∃ doc2, rename_name doc address "" = .ok doc2 ∧
        plookup doc2.names address = none ∧
        ∀ v, rename_name doc2 address v = .error (.missingEntryError
          ("name not set at " ++ format_address address ++
            "; use add-function or add-variable to create it"))) ∧
    ((doc.line_comments.map Prod.fst).Nodup → plookup doc.line_comments address = some c0 →
      ∃ doc2, rename_comment doc address "" = .ok doc2 ∧
        plookup doc2.line_comments address = none ∧
        ∀ v, rename_comment doc2 address v = .error (.missingEntryError
          ("line comment not set at " ++ format_address address ++
            "; use add-comment to create it"))) := by
  constructor
  · intro hnd hsome
    have habs : plookup (pyRemove doc.names address) address = none :=
      plookup_pyRemove_self address hnd
    refine ⟨{ doc with names := pyRemove doc.names address }, ?_, habs, ?_⟩
    · simp [rename_name, ensure_name_exists, hsome]
    · intro v
      simp [rename_name, ensure_name_exists, habs]
  · intro hnd hsome
    have habs : plookup (pyRemove doc.line_comments address) address = none :=
      plookup_pyRemove_self address hnd
    refine ⟨{ doc with line_comments := pyRemove doc.line_comments address }, ?_, habs, ?_⟩
    · simp [rename_comment, ensure_comment_exists, hsome]
    · intro v
      simp [rename_comment, ensure_comment_exists, habs]

/-- C8 witness: deleting the name and the comment at 0x1000 from a
one-entry store, then failing to rename either. -/
theorem rename_empty_deletes_then_notfound_witness :
    ((((⟨[], [(4096, "old")], [], [], [(4096, "c")], []⟩ : BnidaData).names.map
        Prod.fst).Nodup) ∧
      plookup (⟨[], [(4096, "old")], [], [], [(4096, "c")], []⟩ : BnidaData).names 4096 =
        some "old") ∧
    (∃ doc2, rename_name (⟨[], [(4096, "old")], [], [], [(4096, "c")], []⟩ : BnidaData)
        4096 "" = .ok doc2 ∧
      plookup doc2.names 4096 = none ∧
      ∀ v, rename_name doc2 4096 v = .error (.missingEntryError
        ("name not set at " ++ format_address 4096 ++
          "; use add-function or add-variable to create it"))) ∧
    (∃ doc2, rename_comment (⟨[], [(4096, "old")], [], [], [(4096, "c")], []⟩ : BnidaData)
        4096 "" = .ok doc2 ∧
      plookup doc2.line_comments 4096 = none ∧
      ∀ v, rename_comment doc2 4096 v = .error (.missingEntryError
        ("line comment not set at " ++ format_address 4096 ++
          "; use add-comment to create it"))) :=
  ⟨⟨by decide, rfl⟩,
    (rename_empty_deletes_then_notfound
      (⟨[], [(4096, "old")], [], [], [(4096, "c")], []⟩ : BnidaData) 4096 "old" "c").1
      (by decide) rfl,
    (rename_empty_deletes_then_notfound
      (⟨[], [(4096, "old")], [], [], [(4096, "c")], []⟩ : BnidaData) 4096 "old" "c").2
      (by decide) rfl⟩

end ClaimC8

section ClaimC9

/-- C9: rebasing is a pure function of the two section layouts and the
address — when a source section containing the address is found and the
target layout has a section of the same name, the result is the target
section's start plus the address's offset from the source section's
start; in particular rebasing 0x1100 from `.text = [0x1000, 0x2000)` to
`.text = [0x4000, 0x5000)` yields 0x4100. -/
theorem adjust_addr_rebases (src tgt : List (String × BnidaSection)) (addr : Int)
    (name : String) (s t : BnidaSection)
    (hfind : src.find?
      (fun kv => decide (kv.2.start ≤ addr) && decide (addr < kv.2.«end»)) =
      some (name, s))
    (htgt : plookup tgt name = some t) :
    adjust_addr src tgt addr = some (t.start + (addr - s.start)) ∧
    adjust_addr [(".text", ⟨0x1000, 0x2000⟩)] [(".text", ⟨0x4000, 0x5000⟩)] 0x1100 =
      some 0x4100 := by
  constructor
  · simp [adjust_addr, hfind, htgt]
  · rfl

/-- C9 witness: the rebasing contract applied at the concrete `.text`
layouts of the repository's test. -/
theorem adjust_addr_rebases_witness :
    ([(".text", (⟨0x1000, 0x2000⟩ : BnidaSection))].find?
      (fun kv => decide (kv.2.start ≤ (0x1100 : Int)) && decide ((0x1100 : Int) < kv.2.«end»)) =
      some (".text", (⟨0x1000, 0x2000⟩ : BnidaSection))) ∧
    plookup [(".text", (⟨0x4000, 0x5000⟩ : BnidaSection))] ".text" =
      some (⟨0x4000, 0x5000⟩ : BnidaSection) ∧
    adjust_addr [(".text", ⟨0x1000, 0x2000⟩)] [(".text", ⟨0x4000, 0x5000⟩)] 0x1100 =
      some (0x4000 + ((0x1100 : Int) - 0x1000)) :=
  ⟨rfl, rfl,
    (adjust_addr_rebases [(".text", ⟨0x1000, 0x2000⟩)] [(".text", ⟨0x4000, 0x5000⟩)]
      0x1100 ".text" ⟨0x1000, 0x2000⟩ ⟨0x4000, 0x5000⟩ rfl rfl).1⟩

end ClaimC9

end Bnida
